import Mathlib

/-
Verification development for the SCR fetch pipeline (src/src/scr_fetch.c).

The C functions are shallowly embedded as pure Lean functions.  External
effects (file descriptors, reads, writes, MPI messages, the on-disk filemap
and index) are modelled by oracle environments supplying the outcome of each
collaborator call, and by explicit event traces recording the externally
visible actions in program order.  C strings and path buffers are modelled as
lists of characters; machine integers that can be negative are modelled as
Int, sizes and counts as Nat.
-/

namespace SCRFetch

/-- Return codes: SCR_SUCCESS / SCR_FAILURE. -/
inductive RC
  | success
  | failure
deriving DecidableEq, Repr

/-- C strings / path buffers are modelled as lists of characters. -/
abbrev Str := List Char

/-- scr_build_path: concatenate a directory and a name with a slash
(truncation of the fixed-size C buffer is not modelled). -/
def buildPath (d n : Str) : Str := d ++ '/' :: n

/-- The basename component produced by scr_split_path: the text after the
last slash (the accumulator is reset whenever a slash is seen). -/
def baseNameL (l : Str) : Str :=
  l.foldl (fun acc c => if c = '/' then [] else acc ++ [c]) []

/-- Process-wide configuration read during fetch: scr_crc_on_flush,
scr_file_buf_size, and the zlib crc32 collaborator (abstract rolling
checksum function taking the running value and the new chunk of bytes). -/
structure Config where
  crcOnFlush : Bool
  bufSize : Nat
  crcFun : Nat → List Nat → Nat

/-- The hash stored under one segment key in the summary file: the fields
looked up by scr_container_get_name_size_offset_length.  A missing field
models a failing scr_hash_util getter. -/
structure SegHash where
  length : Option Nat
  containerId : Option Int
  containerOffset : Option Nat
deriving DecidableEq, Repr

/-- One record of the containers catalogue: NAME and SIZE fields. -/
structure ContainerInfoRec where
  name : Option Str
  size : Option Nat
deriving DecidableEq, Repr

/-- The containers catalogue: container id keys mapped to their info hash
(scr_hash_getf with the id). -/
abbrev Containers := List (Int × ContainerInfoRec)

/-- scr_container_get_name_size_offset_length: extract container name, size,
offset and length for the container holding the given segment.  Each failing
hash lookup is an early SCR_FAILURE return, modelled as none.  (The NULL
pointer checks on the C arguments are vacuous in the typed embedding.) -/
def scr_container_get_name_size_offset_length (segment : SegHash)
    (containers : Containers) : Option (Str × Nat × Nat × Nat) :=
  match segment.length with
  | none => none
  | some len =>
    match segment.containerId with
    | none => none
    | some id =>
      match segment.containerOffset with
      | none => none
      | some off =>
        let info := containers.lookup id
        match info.bind (fun i => i.name) with
        | none => none
        | some nm =>
          match info.bind (fun i => i.size) with
          | none => none
          | some sz => some (nm, sz, off, len)

/-- Outcome of one scr_read_attempt call: the bytes placed in the buffer, or
a read error (negative return).  An empty environment stream is also treated
as a read error. -/
inductive ReadRes
  | ok (data : List Nat)
  | err
deriving DecidableEq, Repr

/-- Environment for processing one segment: outcomes of the container open,
the lseek, each scr_read_attempt (in order), each scr_write_attempt (true
means the write returned exactly the requested count), and the container
close. -/
structure SegEnv where
  openOk : Bool
  seekOk : Bool
  reads : List ReadRes
  writes : List Bool
  closeOk : Bool

/-- Environment for one scr_fetch_file_from_containers call. -/
structure CtnEnv where
  openDstOk : Bool
  allocOk : Bool
  segEnv : Nat → SegEnv
  closeDstOk : Bool

/-- Externally visible events of the per-file fetch functions, in program
order: destination file creation, byte transfers into the destination
(tagged with the key of the segment they come from), and filemap updates. -/
inductive Ev
  | openD (path : Str)
  | writeSeg (segKey : Int) (bytes : List Nat)
  | filemapAdd (path : Str)
  | filemapWrite
  | setMeta (path : Str) (complete : Nat)
  | setExpected (n : Nat)
deriving DecidableEq, Repr

/-- The chunked copy loop of scr_fetch_file_from_containers for one segment:
read up to buf_size bytes, optionally fold them into the crc, write them
out, and stop with SCR_FAILURE on a write error, a short read (checked with
the C unsigned comparison, which a negative nread never satisfies) or a
read error.  Returns the result code, the running crc and the write events.
(With buf_size = 0 the C loop reads zero bytes forever; the model instead
consumes the finite read stream.) -/
def copyLoop (cfg : Config) (key : Int) :
    List ReadRes → List Bool → Nat → Nat → RC × Nat × List Ev
  | [], _, remaining, crc =>
    if remaining = 0 then (.success, crc, []) else (.failure, crc, [])
  | r :: rest, ws, remaining, crc =>
    if remaining = 0 then (.success, crc, []) else
    let count := min remaining cfg.bufSize
    match r with
    | .err => (.failure, crc, [])
    | .ok data =>
      let d := data.take count
      if 0 < d.length then
        let crc2 := if cfg.crcOnFlush then cfg.crcFun crc d else crc
        match ws with
        | [] => (.failure, crc2, [])
        | w :: wrest =>
          if w then
            if d.length < count then (.failure, crc2, [Ev.writeSeg key d])
            else
              let rest2 := copyLoop cfg key rest wrest (remaining - d.length) crc2
              (rest2.1, rest2.2.1, Ev.writeSeg key d :: rest2.2.2)
          else (.failure, crc2, [])
      else
        if 0 < count then (.failure, crc, [])
        else copyLoop cfg key rest ws remaining crc

/-- How the processing of one segment ended. -/
inductive SegOutcome
  | setupFail
  | transferFail
  | closeFail
  | ok
deriving DecidableEq, Repr

/-- Result of processing one segment of the container fetch loop:
its outcome, the write events it produced, the running crc afterwards, and
whether the C loop is left by a toplevel break (which only the setup
failures - metadata resolution, container open, seek - perform). -/
structure SegStepRes where
  outcome : SegOutcome
  evs : List Ev
  crc : Nat
  abortAll : Bool

/-- The body of the segment loop of scr_fetch_file_from_containers for a
single segment: resolve the container, open it, seek to the offset, copy
the segment through the buffer, close the container.  Setup failures break
out of the whole loop; copy and close failures only mark SCR_FAILURE and
fall through to the next segment. -/
def segStep (cfg : Config) (ctns : Containers) (key : Int) (sh : SegHash)
    (e : SegEnv) (crc : Nat) : SegStepRes :=
  match scr_container_get_name_size_offset_length sh ctns with
  | none => ⟨.setupFail, [], crc, true⟩
  | some info =>
    if e.openOk = false then ⟨.setupFail, [], crc, true⟩
    else if e.seekOk = false then ⟨.setupFail, [], crc, true⟩
    else
      let seglen := info.2.2.2
      let c := copyLoop cfg key e.reads e.writes seglen crc
      let outcome : SegOutcome :=
        if c.1 = .failure then .transferFail
        else if e.closeOk = false then .closeFail
        else .ok
      ⟨outcome, c.2.2, c.2.1, false⟩

/-- The segment loop of scr_fetch_file_from_containers: process the (sorted)
segments in order, threading the crc and the sticky SCR_FAILURE result,
stopping early only on a setup failure.  Returns the result code, the final
crc and the per-segment trace (outcome and events of each processed
segment). -/
def segProcess (cfg : Config) (ctns : Containers) (env : Nat → SegEnv) :
    List (Int × SegHash) → Nat → Nat → RC → RC × Nat × List (SegOutcome × List Ev)
  | [], _, crc, rc => (rc, crc, [])
  | (key, sh) :: rest, k, crc, rc =>
    let s := segStep cfg ctns key sh (env k) crc
    let rc2 := if s.outcome = .ok then rc else .failure
    if s.abortAll then (rc2, s.crc, [(s.outcome, s.evs)])
    else
      let r := segProcess cfg ctns env rest (k + 1) s.crc rc2
      (r.1, r.2.1, (s.outcome, s.evs) :: r.2.2)

/-- Insert one keyed segment into a key-ascending list. -/
def insertSeg (x : Int × SegHash) : List (Int × SegHash) → List (Int × SegHash)
  | [] => [x]
  | y :: ys => if x.1 ≤ y.1 then x :: y :: ys else y :: insertSeg x ys

/-- scr_hash_sort_int ascending on the segment keys. -/
def sortSegs : List (Int × SegHash) → List (Int × SegHash)
  | [] => []
  | x :: xs => insertSeg x (sortSegs xs)

/-- Result of scr_fetch_file_from_containers: the returned code, the code
just before the final crc verification, the computed crc, the per-segment
trace, and the flat event trace. -/
structure CtnResult where
  rc : RC
  preCrcRc : RC
  crc : Nat
  segTrace : List (SegOutcome × List Ev)
  evs : List Ev
deriving Repr

/-- scr_fetch_file_from_containers: open the destination for truncating
write, copy each segment (in ascending key order) from its container, close
the destination, and finally verify the computed crc against the crc
recorded in the meta data when scr_crc_on_flush is set.  (The uninitialized
C crc variable in the non-crc case is modelled as 0; it is never used.) -/
def scr_fetch_file_from_containers (cfg : Config) (file : Str)
    (metaCrc : Option Nat) (segments : List (Int × SegHash))
    (ctns : Containers) (env : CtnEnv) : CtnResult :=
  if file = [] then ⟨.failure, .failure, 0, [], []⟩
  else if env.openDstOk = false then ⟨.failure, .failure, 0, [], []⟩
  else if env.allocOk = false then ⟨.failure, .failure, 0, [], [Ev.openD file]⟩
  else
    let crc0 := if cfg.crcOnFlush then cfg.crcFun 0 [] else 0
    let r := segProcess cfg ctns env.segEnv (sortSegs segments) 0 crc0 .success
    let preCrc := if env.closeDstOk then r.1 else .failure
    let rcF :=
      if preCrc = .success then
        if cfg.crcOnFlush then
          match metaCrc with
          | some c => if r.2.1 ≠ c then .failure else preCrc
          | none => preCrc
        else preCrc
      else preCrc
    ⟨rcF, preCrc, r.2.1, r.2.2, Ev.openD file :: (r.2.2.map Prod.snd).flatten⟩

/-- Environment for one plain-file fetch: the result code of scr_copy_to and
the crc it computed over the copied bytes (meaningful when requested). -/
structure FFEnv where
  copyRc : RC
  copyCrc : Nat

/-- Modelled from the spec: scr_copy_to (the FileCopy collaborator,
spec section 4.1) is not part of src/.  Per the spec it opens/creates
dst_dir/basename(src) and streams the source bytes into it, optionally
maintaining a rolling crc; the transfer outcome and the computed crc are
supplied by the environment, and the destination creation is recorded as
an event at the point of the call. -/
def scr_copy_to (src dstDir : Str) (env : FFEnv) : RC × Nat × Str × List Ev :=
  let dst := buildPath dstDir (baseNameL src)
  (env.copyRc, env.copyCrc, dst, [Ev.openD dst])

/-- Result of scr_fetch_file: the returned code, the code just before the
crc comparison (the scr_copy_to result), and the event trace. -/
structure FFResult where
  rc : RC
  preCrcRc : RC
  evs : List Ev
deriving Repr

/-- scr_fetch_file: read the file name from the meta data, build the full
source path, copy it into dst_dir via scr_copy_to, and flip the result to
SCR_FAILURE when a crc is recorded in the meta data, the copy succeeded,
scr_crc_on_flush is set, and the computed crc differs.  (scr_build_path
truncation is not modelled.) -/
def scr_fetch_file (cfg : Config) (srcDir : Str) (metaFilename : Option Str)
    (metaCrc : Option Nat) (dstDir : Str) (env : FFEnv) : FFResult :=
  match metaFilename with
  | none => ⟨.failure, .failure, []⟩
  | some mf =>
    let filename := buildPath srcDir mf
    let c := scr_copy_to filename dstDir env
    let rc :=
      match metaCrc with
      | some mc =>
        if c.1 = .success ∧ cfg.crcOnFlush = true ∧ c.2.1 ≠ mc then .failure
        else c.1
      | none => c.1
    ⟨rc, c.1, c.2.2.2⟩

/-- The per-file hash of the scattered summary data, as looked up by
scr_fetch_files_list: the NOFETCH marker (an Option: the field models
presence of the key, its Bool payload the key's value), the SIZE, COMPLETE
and CRC entries, the PATH entry (plain-file mode) and the SEGMENT hash
(container mode). -/
structure FileRec where
  noFetch : Option Bool
  size : Option Nat
  complete : Option Int
  crc : Option Nat
  path : Option Str
  segments : List (Int × SegHash)
deriving DecidableEq, Repr

/-- Environment for fetching one file: the container-path and plain-path
oracles (only the one matching the mode is consumed). -/
structure FileEnv where
  ctn : CtnEnv
  ff : FFEnv

/-- The destination path of a fetched file: cache dir plus the name
component of the source file (scr_split_path followed by scr_build_path). -/
def newfileOf (dir f : Str) : Str := buildPath dir (baseNameL f)

/-- The file loop of scr_fetch_files_list: skip files carrying the NOFETCH
key, count the file, add it to the filemap and write the filemap to disk,
then read the size (a missing SIZE entry sets SCR_FAILURE and breaks the
loop), build the meta data, fetch from containers or from the plain path,
record the (possibly incomplete) meta.  The environment is a stream of
per-file oracles indexed by the number of fetches performed so far.
Returns the result code, the processed-file count and the event trace. -/
def flProcess (cfg : Config) (ctns : Option Containers) (dir : Str)
    (env : Nat → FileEnv) :
    List (Str × FileRec) → Nat → RC → Nat → RC × Nat × List Ev
  | [], _, rc, cnt => (rc, cnt, [])
  | (f, rec) :: rest, k, rc, cnt =>
    match rec.noFetch with
    | some _ => flProcess cfg ctns dir env rest k rc cnt
    | none =>
      let cnt2 := cnt + 1
      let nf := newfileOf dir f
      let evs0 := [Ev.filemapAdd nf, Ev.filemapWrite]
      match rec.size with
      | none => (.failure, cnt2, evs0)
      | some _ =>
        let fe := env k
        let fres : List Ev × Nat × RC :=
          match ctns with
          | some c =>
            let r := scr_fetch_file_from_containers cfg nf rec.crc rec.segments c fe.ctn
            (r.evs, if r.rc = .failure then 0 else 1,
             if r.rc = .failure then .failure else rc)
          | none =>
            match rec.path with
            | some fromDir =>
              let r := scr_fetch_file cfg fromDir (some nf) rec.crc dir fe.ff
              (r.evs, if r.rc = .failure then 0 else 1,
               if r.rc = .failure then .failure else rc)
            | none => ([], 0, .failure)
        let r := flProcess cfg ctns dir env rest (k + 1) fres.2.2 cnt2
        (r.1, r.2.1, evs0 ++ fres.1 ++ Ev.setMeta nf fres.2.1 :: r.2.2)

/-- Result of scr_fetch_files_list. -/
structure FLRes where
  rc : RC
  count : Nat
  evs : List Ev

/-- scr_fetch_files_list: iterate over the file list fetching each file into
the cache directory, then record the expected file count and write the
filemap a final time. -/
def scr_fetch_files_list (cfg : Config) (ctns : Option Containers) (dir : Str)
    (env : Nat → FileEnv) (files : List (Str × FileRec)) : FLRes :=
  let r := flProcess cfg ctns dir env files 0 .success 0
  ⟨r.1, r.2.1, r.2.2 ++ [Ev.setExpected r.2.1, Ev.filemapWrite]⟩

/-- Flow-control messages of scr_fetch_data on rank 0: a "go" flag sent to a
worker rank (carrying the success-so-far code) and the "done" reply received
from it (carrying the worker's code). -/
inductive FCEv
  | go (r : Nat) (flag : RC)
  | done (r : Nat) (flag : RC)
deriving DecidableEq, Repr

/-- The window W of scr_fetch_data: scr_fetch_width clamped to
scr_ranks_world - 1. -/
def wOf (fetchWidth n : Nat) : Nat := if fetchWidth > n - 1 then n - 1 else fetchWidth

/-- The inner fill loop of scr_fetch_data on rank 0: while there are ranks
left and fewer than w outstanding requests, post the receive, send the "go"
flag to the next rank and advance.  Returns the emitted events, the next
rank, the outstanding count and the pending ranks (posted receives not yet
completed, in posting order).  The structural fuel argument is passed as
n - i by the caller, which never runs out while i < n. -/
def fcFill (n w : Nat) (succ : RC) :
    Nat → Nat → Nat → List Nat → List FCEv × Nat × Nat × List Nat
  | 0, i, out, pending => ([], i, out, pending)
  | fuel + 1, i, out, pending =>
    if i < n ∧ out < w then
      let r := fcFill n w succ fuel (i + 1) (out + 1) (pending ++ [i])
      (FCEv.go i succ :: r.1, r.2)
    else ([], i, out, pending)

/-- The outer flow-control loop of scr_fetch_data on rank 0: fill the window,
wait for any pending reply (the choice among pending receives made by
MPI_Waitany is supplied by the oracle list), fold the reply into the
success-so-far code, and continue until all ranks are visited and the window
has drained.  The fuel bounds the number of outer iterations; every run of
the C loop is a run of the model for a large enough fuel.  (If the window is
empty when MPI_Waitany is reached - only possible when w = 0 - the C call is
undefined and the model stops.) -/
def fcRun (n w : Nat) (reply : Nat → RC) :
    Nat → List Nat → RC → Nat → Nat → List Nat → List FCEv
  | 0, _, _, _, _, _ => []
  | fuel + 1, choices, succ, i, out, pending =>
    if i < n ∨ 0 < out then
      let f := fcFill n w succ (n - i) i out pending
      match f.2.2.2 with
      | [] => f.1
      | q :: qs =>
        let idx := (choices.headD 0) % (q :: qs).length
        let r := (q :: qs).getD idx 0
        let rep := reply r
        let succ2 := if rep = .success then succ else .failure
        f.1 ++ FCEv.done r rep ::
          fcRun n w reply fuel choices.tail succ2 f.2.1 (f.2.2.1 - 1)
            ((q :: qs).eraseIdx idx)
    else []

/-- Number of "go" events in a flow-control trace. -/
def goCount : List FCEv → Nat
  | [] => 0
  | .go _ _ :: t => goCount t + 1
  | .done _ _ :: t => goCount t

/-- Number of "done" events in a flow-control trace. -/
def doneCount : List FCEv → Nat
  | [] => 0
  | .go _ _ :: t => doneCount t
  | .done _ _ :: t => doneCount t + 1

/-- A flow-control trace is w-bounded starting from a given outstanding
count: every "go" keeps the outstanding count at most w, every "done" finds
a request outstanding. -/
inductive Bounded (w : Nat) : Nat → List FCEv → Prop
  | nil (out : Nat) : Bounded w out []
  | go (out r : Nat) (f : RC) (t : List FCEv) :
      out + 1 ≤ w → Bounded w (out + 1) t → Bounded w out (.go r f :: t)
  | done (out r : Nat) (f : RC) (t : List FCEv) :
      1 ≤ out → Bounded w (out - 1) t → Bounded w out (.done r f :: t)

/-- The summary file payload read by rank 0 (scr_summary_read): the dataset
hash (kept opaque as a key/value list), the containers catalogue and the
per-rank file assignments. -/
structure SummaryData where
  dataset : List (Str × Str)
  containers : Containers
  rank2file : List (Nat × List (Str × FileRec))

/-- Environment of one scr_fetch_summary call on one rank: rank 0's
directory-readability check and summary read outcome, and the payloads the
collective broadcast / exchange delivers to a non-zero rank (in a coupled
run these equal rank 0's values; they are oracles of the single-rank
model).  recvFiles lists the file hashes received from the ranks that sent
to us in scr_hash_exchange. -/
structure SumEnv where
  dirReadable : Bool
  readRes : Option SummaryData
  rcBcast : RC
  recvDataset : List (Str × Str)
  recvContainers : Containers
  recvFiles : List (List (Str × FileRec))

/-- The file_list assembled by scr_fetch_summary. -/
structure SumOut where
  rc : RC
  dataset : List (Str × Str)
  containers : Option Containers
  files : List (Str × FileRec)

/-- scr_fetch_summary: rank 0 reads the summary file and broadcasts the
status; on success the dataset hash and the containers catalogue are
broadcast (the catalogue is stored only when non-empty), the per-rank file
hashes are scattered (each received hash replaces the FILE entry, so the
last one wins), and a PATH entry pointing at the fetch directory is then
attached to every file entry.  (The C comment claims the PATH entries are
only added when containers are not used, but the loop at
scr_fetch.c:541-550 is unconditional.) -/
def scr_fetch_summary (rank : Nat) (dir : Str) (env : SumEnv) : SumOut :=
  let rc : RC :=
    if rank = 0 then
      if env.dirReadable then
        if env.readRes.isSome then .success else .failure
      else .failure
    else env.rcBcast
  if rc = .failure then ⟨.failure, [], none, []⟩
  else
    let sum := env.readRes.getD ⟨[], [], []⟩
    let dataset := if rank = 0 then sum.dataset else env.recvDataset
    let ctn := if rank = 0 then sum.containers else env.recvContainers
    let containersOut := if 0 < ctn.length then some ctn else none
    let files0 := env.recvFiles.foldl (fun _ fs => fs) []
    let files := files0.map (fun p => (p.1, { p.2 with path := some dir }))
    ⟨.success, dataset, containersOut, files⟩

/-- Events of scr_fetch_sync touching the prefix directory: creating the
current symlink, unlinking it, and rank 0's index updates. -/
inductive SyEv
  | linkCreate (target : Str)
  | unlinkCur
  | markFetched (id : Int) (target : Str)
  | markFailed (id : Int) (target : Str)
  | indexWrite
deriving DecidableEq, Repr

/-- Oracle for one iteration of the scr_fetch_sync loop: the target read
from the current symlink (none when the link is unreadable; rank 0 only),
the index answers for scr_index_get_id_by_dir and
scr_index_get_most_recent_complete, the fetch directory a non-zero rank
receives from the broadcast inside scr_fetch_files, and the collective
outcome of scr_fetch_files when its directory is non-empty. -/
structure IterO where
  linkTarget : Option Str
  idByDir : Option Int
  mrc : Option (Int × Str)
  fetchDirB : Str
  fetchRes : RC

/-- Loop state of scr_fetch_sync: the current checkpoint id ceiling and the
out-parameter fetch_attempted. -/
structure SyncSt where
  ceil : Int
  attempted : Int
deriving DecidableEq, Repr

/-- Result of one iteration of the scr_fetch_sync loop. -/
structure IterRes where
  evs : List SyEv
  ceil : Int
  attempted : Int
  cont : Bool
  rc : RC
  selected : Bool
  target : Str
deriving Repr

/-- Rank 0's candidate selection: the checkpoint id and target directory
for this iteration, from the current symlink when it is readable, else
from the most recent complete entry of the index; the ceiling is updated
only when the index file was read. -/
def iterSel (readIx : Bool) (st : SyncSt) (o : IterO) : Int × Str :=
  if readIx then
    if (o.linkTarget.getD []) ≠ [] then
      (o.idByDir.getD (-1), o.linkTarget.getD [])
    else match o.mrc with
      | some x => x
      | none => (-1, [])
  else (st.ceil, o.linkTarget.getD [])

/-- One iteration of the scr_fetch_sync loop.  Rank 0 reads the current
symlink, resolves the next candidate from the index (when the index file
was read), records the attempt in the index, and builds the fetch
directory; all ranks then run scr_fetch_files (which returns SCR_FAILURE
right after the directory broadcast when the directory is empty).  On
success rank 0 creates the current symlink and the loop stops; on failure
EVERY rank unlinks the current symlink, rank 0 marks the candidate failed
in the index when the index file was read and the candidate id is valid,
and the loop continues unless the fetch directory was empty. -/
def syncIter (r0 : Bool) (readIx : Bool) (prefD : Str) (st : SyncSt)
    (o : IterO) : IterRes :=
  if r0 then
    let p := iterSel readIx st o
    let ceil2 := p.1
    let target := p.2
    let selected := target ≠ []
    let attempted2 := if selected then 1 else st.attempted
    let evs1 : List SyEv :=
      if selected ∧ readIx ∧ ceil2 ≠ -1 then
        [SyEv.markFetched ceil2 target, SyEv.indexWrite]
      else []
    let fetchDir : Str := if selected then buildPath prefD target else []
    let rc := if fetchDir = [] then .failure else o.fetchRes
    if rc = .success then
      ⟨evs1 ++ [SyEv.linkCreate target], ceil2, attempted2, false, rc, selected, target⟩
    else
      let evs2 : List SyEv :=
        if fetchDir ≠ [] ∧ readIx ∧ ceil2 ≠ -1 ∧ target ≠ [] then
          [SyEv.markFailed ceil2 target, SyEv.indexWrite]
        else []
      ⟨evs1 ++ SyEv.unlinkCur :: evs2, ceil2, attempted2, fetchDir ≠ [], rc, selected, target⟩
  else
    let fetchDir := o.fetchDirB
    let rc := if fetchDir = [] then .failure else o.fetchRes
    if rc = .success then
      ⟨[], st.ceil, st.attempted, false, rc, false, []⟩
    else
      ⟨[SyEv.unlinkCur], st.ceil, st.attempted, fetchDir ≠ [], rc, false, []⟩

/-- The retry loop of scr_fetch_sync: run iterations until one clears
continue_fetching; the environment supplies finitely many iteration
oracles, and an exhausted list truncates the run with the current state.
Returns the final state, the event trace, the final result code and
whether any iteration selected a candidate (non-empty target). -/
def syncLoop (r0 readIx : Bool) (prefD : Str) :
    SyncSt → RC → List IterO → SyncSt × List SyEv × RC × Bool
  | st, rcIn, [] => (st, [], rcIn, false)
  | st, _, o :: rest =>
    let it := syncIter r0 readIx prefD st o
    if it.cont then
      let r := syncLoop r0 readIx prefD ⟨it.ceil, it.attempted⟩ it.rc rest
      (r.1, it.evs ++ r.2.1, r.2.2.1, it.selected || r.2.2.2)
    else (⟨it.ceil, it.attempted⟩, it.evs, it.rc, it.selected)

/-- Environment of one scr_fetch_sync call on one rank. -/
structure SyncEnv where
  readIndexOk : Bool
  iters : List IterO
  bcastAttempted : Int

/-- Result of scr_fetch_sync on one rank: the return code, the value of the
out-parameter fetch_attempted after the final broadcast, the trace of
prefix-directory events this rank performed, and whether any candidate was
selected (rank 0 only; instrumentation). -/
structure SyncRes where
  rc : RC
  attemptedOut : Int
  evs : List SyEv
  selectedAny : Bool
deriving Repr

/-- scr_fetch_sync on one rank: rank 0 reads the index file, the retry loop
runs, and the final MPI_Bcast overwrites every rank's fetch_attempted with
rank 0's value (supplied by the oracle on non-zero ranks).  The
out-parameter is never cleared by the function: when no candidate is
selected it keeps its incoming value on rank 0. -/
def scr_fetch_sync (rank : Nat) (prefD : Str) (attemptedIn : Int)
    (env : SyncEnv) : SyncRes :=
  let r0 := rank = 0
  let readIx := rank = 0 ∧ env.readIndexOk = true
  let r := syncLoop (decide r0) (decide readIx) prefD ⟨-1, attemptedIn⟩ .failure env.iters
  ⟨r.2.2.1, if rank = 0 then r.1.attempted else env.bcastAttempted, r.2.1, r.2.2.2⟩

/-
Concrete instances used by counterexamples and witnesses.
-/

/-- A configuration with crc verification off and a 4-byte buffer. -/
def cfg0 : Config := ⟨false, 4, fun c _ => c⟩

/-- A configuration with crc verification on; the abstract crc folds the
byte sum into the running value. -/
def cfg1 : Config := ⟨true, 4, fun c bs => c + bs.sum⟩

/-- A catalogue with a single container. -/
def ctns0 : Containers := [(0, ⟨some ['b'], some 100⟩)]

/-- A 4-byte segment of container 0. -/
def sh0 : SegHash := ⟨some 4, some 0, some 0⟩

/-- A 3-byte segment of container 0. -/
def sh1 : SegHash := ⟨some 3, some 0, some 4⟩

/-- A segment whose LENGTH lookup fails. -/
def shBad : SegHash := ⟨none, none, none⟩

/-- Per-segment environments: segment 0 suffers a short read (2 of 4
bytes), segment 1 transfers its 3 bytes in full. -/
def segEnv0 : Nat → SegEnv := fun k =>
  if k = 0 then ⟨true, true, [ReadRes.ok [1, 2]], [true], true⟩
  else ⟨true, true, [ReadRes.ok [5, 6, 7]], [true], true⟩

/-- A container-fetch environment in which all descriptor operations
succeed. -/
def ctnEnv0 : CtnEnv := ⟨true, true, segEnv0, true⟩

/-- Per-segment environments delivering a clean 3-byte transfer. -/
def segEnvOk : Nat → SegEnv := fun _ =>
  ⟨true, true, [ReadRes.ok [5, 6, 7]], [true], true⟩

/-- A fully successful container-fetch environment. -/
def ctnEnv1 : CtnEnv := ⟨true, true, segEnvOk, true⟩

/-- A file record whose SIZE lookup fails. -/
def recNoSize : FileRec := ⟨none, none, none, none, some ['s'], []⟩

/-- A plain-file record with a source path. -/
def recPlain : FileRec := ⟨none, some 1, none, none, some ['s'], []⟩

/-- A plain-file record carrying the NOFETCH key with value false. -/
def recNoF : FileRec := ⟨some false, some 1, none, none, some ['s'], []⟩

/-- A file record without a PATH entry. -/
def recNoPath : FileRec := ⟨none, some 1, none, none, none, []⟩

/-- A per-file environment whose plain copy succeeds. -/
def fenvOk : FileEnv := ⟨ctnEnv1, ⟨.success, 0⟩⟩

/-- A per-file environment whose plain copy fails. -/
def fenvFail : FileEnv := ⟨ctnEnv1, ⟨.failure, 0⟩⟩

/-- A reply oracle in which every worker reports success. -/
def replyOk : Nat → RC := fun _ => .success

/-- A failing sync iteration in which the candidate comes from the current
symlink (used when the index file could not be read). -/
def itFailNoIx : IterO := ⟨some ['c', '9'], none, none, [], .failure⟩

/-- A failing sync iteration whose candidate (id 5, directory d) comes from
the index. -/
def itFailIx : IterO := ⟨none, none, some (5, ['d']), [], .failure⟩

/-- A sync iteration in which no candidate remains. -/
def itEmpty : IterO := ⟨none, none, none, [], .success⟩

/-- A sync environment with one empty-candidate iteration. -/
def envC7 : SyncEnv := ⟨true, [itEmpty], 0⟩

/-- A sync environment for a non-zero rank: one failing iteration with a
non-empty broadcast fetch directory. -/
def envC8 : SyncEnv := ⟨false, [⟨none, none, none, ['d'], .failure⟩], 0⟩

/-- The initial sync loop state. -/
def st0 : SyncSt := ⟨-1, 0⟩

/-- A summary payload with a non-empty containers catalogue. -/
def sum0 : SummaryData := ⟨[], ctns0, [(0, [(['f'], recNoPath)])]⟩

/-- A summary environment: readable directory, summary with containers,
this rank receives one file hash. -/
def env9 : SumEnv := ⟨true, some sum0, .success, [], [], [[(['f'], recNoPath)]]⟩

/-- Whether the fetch of one file fails in the given environment (the
container path when a catalogue is present, otherwise the plain path; a
missing PATH entry counts as a failure). -/
def fetchFails (cfg : Config) (ctns : Option Containers) (dir : Str)
    (f : Str) (rec : FileRec) (fe : FileEnv) : Prop :=
  match ctns with
  | some c =>
    (scr_fetch_file_from_containers cfg (newfileOf dir f) rec.crc
      rec.segments c fe.ctn).rc = .failure
  | none =>
    match rec.path with
    | some fromDir =>
      (scr_fetch_file cfg fromDir (some (newfileOf dir f)) rec.crc dir
        fe.ff).rc = .failure
    | none => True

/-- The number of files of a list that are not excluded by a NOFETCH key
(each consumes one entry of the per-file environment stream). -/
def activeCount (fs : List (Str × FileRec)) : Nat :=
  (fs.filter (fun p => p.2.noFetch.isNone)).length

/-- An event trace in which every destination-file creation is preceded by
the corresponding filemap addition followed by a filemap write. -/
def GoodT (evs : List Ev) : Prop :=
  ∀ (i : Nat) (p : Str), evs[i]? = some (Ev.openD p) →
    ∃ k j, k < j ∧ j < i ∧ evs[k]? = some (Ev.filemapAdd p) ∧
      evs[j]? = some Ev.filemapWrite

/-- A trace with no destination-file creation events. -/
def NoOpen (evs : List Ev) : Prop := ∀ p, Ev.openD p ∉ evs


/-
Supporting lemmas.
-/

/-- Unfolding of the segment loop when the step breaks out of the loop. -/
theorem segProcess_cons_abort {cfg : Config} {ctns : Containers}
    {env : Nat → SegEnv} {key : Int} {sh : SegHash}
    {rest : List (Int × SegHash)} {k crc : Nat} {rc : RC}
    {o : SegOutcome} {evs : List Ev} {crc2 : Nat}
    (hstep : segStep cfg ctns key sh (env k) crc = ⟨o, evs, crc2, true⟩) :
    segProcess cfg ctns env ((key, sh) :: rest) k crc rc =
      (if o = .ok then rc else .failure, crc2, [(o, evs)]) := by
  simp [segProcess, hstep]

/-- Unfolding of the segment loop when the step falls through. -/
theorem segProcess_cons_next {cfg : Config} {ctns : Containers}
    {env : Nat → SegEnv} {key : Int} {sh : SegHash}
    {rest : List (Int × SegHash)} {k crc : Nat} {rc : RC}
    {o : SegOutcome} {evs : List Ev} {crc2 : Nat}
    (hstep : segStep cfg ctns key sh (env k) crc = ⟨o, evs, crc2, false⟩) :
    segProcess cfg ctns env ((key, sh) :: rest) k crc rc =
      ((segProcess cfg ctns env rest (k + 1) crc2
          (if o = .ok then rc else .failure)).1,
       (segProcess cfg ctns env rest (k + 1) crc2
          (if o = .ok then rc else .failure)).2.1,
       (o, evs) ::
         (segProcess cfg ctns env rest (k + 1) crc2
            (if o = .ok then rc else .failure)).2.2) := by
  simp [segProcess, hstep]

/-- A segment step that breaks out of the whole loop is a setup failure and
produced no events. -/
theorem segStep_abort_true {cfg : Config} {ctns : Containers} {key : Int}
    {sh : SegHash} {e : SegEnv} {crc : Nat} {o : SegOutcome} {evs : List Ev}
    {crc2 : Nat}
    (hstep : segStep cfg ctns key sh e crc = ⟨o, evs, crc2, true⟩) :
    o = .setupFail ∧ evs = [] := by
  rcases hm : scr_container_get_name_size_offset_length sh ctns with _ | info
  · simp [segStep, hm] at hstep
    exact ⟨hstep.1.symm, hstep.2.1⟩
  · rcases ho : e.openOk with _ | _
    · simp [segStep, hm, ho] at hstep
      exact ⟨hstep.1.symm, hstep.2.1⟩
    · rcases hs : e.seekOk with _ | _
      · simp [segStep, hm, ho, hs] at hstep
        exact ⟨hstep.1.symm, hstep.2.1⟩
      · simp [segStep, hm, ho, hs] at hstep

/-- A segment step that falls through to the next segment is not a setup
failure. -/
theorem segStep_abort_false {cfg : Config} {ctns : Containers} {key : Int}
    {sh : SegHash} {e : SegEnv} {crc : Nat} {o : SegOutcome} {evs : List Ev}
    {crc2 : Nat}
    (hstep : segStep cfg ctns key sh e crc = ⟨o, evs, crc2, false⟩) :
    o ≠ .setupFail := by
  rcases hm : scr_container_get_name_size_offset_length sh ctns with _ | info
  · simp [segStep, hm] at hstep
  · rcases ho : e.openOk with _ | _
    · simp [segStep, hm, ho] at hstep
    · rcases hs : e.seekOk with _ | _
      · simp [segStep, hm, ho, hs] at hstep
      · simp [segStep, hm, ho, hs] at hstep
        rw [← hstep.1]
        split
        · simp
        · split <;> simp

/-- SCR_FAILURE is sticky through the segment loop. -/
theorem segProcess_sticky (cfg : Config) (ctns : Containers)
    (env : Nat → SegEnv) :
    ∀ (l : List (Int × SegHash)) (k crc : Nat),
      (segProcess cfg ctns env l k crc .failure).1 = .failure := by
  intro l
  induction l with
  | nil => intro k crc; rfl
  | cons x rest ih =>
    intro k crc
    obtain ⟨key, sh⟩ := x
    rcases hstep : segStep cfg ctns key sh (env k) crc with ⟨o, evs, crc2, ab⟩
    cases ab
    · rw [segProcess_cons_next hstep]
      have : (if o = SegOutcome.ok then RC.failure else RC.failure) = RC.failure := by
        split <;> rfl
      rw [this]
      exact ih (k + 1) crc2
    · rw [segProcess_cons_abort hstep]
      split <;> rfl

/-- A setup failure in the segment trace is the last entry, carries no
events, and forces a SCR_FAILURE result of the segment loop. -/
theorem segProcess_setupFail (cfg : Config) (ctns : Containers)
    (env : Nat → SegEnv) :
    ∀ (l : List (Int × SegHash)) (k crc : Nat) (rc : RC) (i : Nat)
      (e : List Ev),
      (segProcess cfg ctns env l k crc rc).2.2.get? i = some (.setupFail, e) →
      (segProcess cfg ctns env l k crc rc).2.2.length = i + 1 ∧ e = [] ∧
        (segProcess cfg ctns env l k crc rc).1 = .failure := by
  intro l
  induction l with
  | nil => intro k crc rc i e h; simp [segProcess] at h
  | cons x rest ih =>
    intro k crc rc i e h
    obtain ⟨key, sh⟩ := x
    rcases hstep : segStep cfg ctns key sh (env k) crc with ⟨o, evs, crc2, ab⟩
    cases ab
    · rw [segProcess_cons_next hstep] at h ⊢
      match i with
      | 0 =>
        rw [List.get?_cons_zero, Option.some_inj, Prod.mk.injEq] at h
        exact absurd h.1 (segStep_abort_false hstep)
      | i + 1 =>
        rw [List.get?_cons_succ] at h
        have := ih (k + 1) crc2 (if o = SegOutcome.ok then rc else .failure) i e h
        refine ⟨?_, this.2.1, this.2.2⟩
        simp only [List.length_cons, this.1]
    · rw [segProcess_cons_abort hstep] at h ⊢
      obtain ⟨ho, he⟩ := segStep_abort_true hstep
      match i with
      | 0 =>
        rw [List.get?_cons_zero, Option.some_inj, Prod.mk.injEq] at h
        refine ⟨rfl, he ▸ h.2.symm, ?_⟩
        rw [ho]; rfl
      | i + 1 => simp at h

/-- Any non-ok outcome in the segment trace forces a SCR_FAILURE result of
the segment loop. -/
theorem segProcess_fail (cfg : Config) (ctns : Containers)
    (env : Nat → SegEnv) :
    ∀ (l : List (Int × SegHash)) (k crc : Nat) (rc : RC) (i : Nat)
      (o : SegOutcome) (e : List Ev),
      (segProcess cfg ctns env l k crc rc).2.2.get? i = some (o, e) →
      o ≠ .ok →
      (segProcess cfg ctns env l k crc rc).1 = .failure := by
  intro l
  induction l with
  | nil => intro k crc rc i o e h _; simp [segProcess] at h
  | cons x rest ih =>
    intro k crc rc i o e h hne
    obtain ⟨key, sh⟩ := x
    rcases hstep : segStep cfg ctns key sh (env k) crc with ⟨o2, evs, crc2, ab⟩
    cases ab
    · rw [segProcess_cons_next hstep] at h ⊢
      match i with
      | 0 =>
        rw [List.get?_cons_zero, Option.some_inj, Prod.mk.injEq] at h
        rw [if_neg (h.1 ▸ hne)]
        exact segProcess_sticky cfg ctns env rest (k + 1) crc2
      | i + 1 =>
        rw [List.get?_cons_succ] at h
        exact ih (k + 1) crc2 _ i o e h hne
    · rw [segProcess_cons_abort hstep] at h ⊢
      match i with
      | 0 =>
        rw [List.get?_cons_zero, Option.some_inj, Prod.mk.injEq] at h
        rw [if_neg (h.1 ▸ hne)]
      | i + 1 => simp at h

/-
Claim C1.
-/

/-- C1 (amended): in scr_fetch_file_from_containers, a failure while
resolving, opening or seeking a segment's container aborts the segment
loop - the failing segment is the last one processed, it transfers no
bytes, and no later segment transfers any - and any failed segment
(including read errors, short reads and write errors) forces the call to
return SCR_FAILURE.  (Read, short-read and write errors do NOT stop the
processing of later segments; see the counterexample.) -/
theorem C1_theorem (cfg : Config) (file : Str) (metaCrc : Option Nat)
    (segments : List (Int × SegHash)) (ctns : Containers) (env : CtnEnv)
    (i : Nat) (o : SegOutcome) (e : List Ev)
    (h : (scr_fetch_file_from_containers cfg file metaCrc segments ctns
        env).segTrace.get? i = some (o, e)) :
    (o = .setupFail →
      (scr_fetch_file_from_containers cfg file metaCrc segments ctns
        env).segTrace.length = i + 1 ∧ e = []) ∧
    (o ≠ .ok →
      (scr_fetch_file_from_containers cfg file metaCrc segments ctns
        env).rc = .failure) := by
  by_cases hf : file = []
  · simp [scr_fetch_file_from_containers, hf] at h
  · by_cases hop : env.openDstOk = false
    · simp [scr_fetch_file_from_containers, hf, hop] at h
    · by_cases hal : env.allocOk = false
      · simp [scr_fetch_file_from_containers, hf, hop, hal] at h
      · simp only [scr_fetch_file_from_containers, if_neg hf, if_neg hop,
          if_neg hal] at h ⊢
        constructor
        · intro ho
          subst ho
          exact ⟨(segProcess_setupFail cfg ctns env.segEnv _ _ _ _ i e h).1,
            (segProcess_setupFail cfg ctns env.segEnv _ _ _ _ i e h).2.1⟩
        · intro hne
          have h1 := segProcess_fail cfg ctns env.segEnv _ _ _ _ i o e h hne
          rw [h1]
          by_cases hcl : env.closeDstOk = true <;> simp [hcl]
  
/-- C1 counterexample: two segments; segment 0 suffers a short read (its
transfer fails), yet the bytes of segment 1 are still transferred into the
destination file afterwards.  This falsifies the claim that once a
segment's transfer fails (read error, short read or write error) no bytes
of any later segment are transferred. -/
theorem C1_counterexample :
    (scr_fetch_file_from_containers cfg0 ['x'] none [(0, sh0), (1, sh1)]
        ctns0 ctnEnv0).segTrace.get? 0 =
      some (.transferFail, [Ev.writeSeg 0 [1, 2]]) ∧
    (scr_fetch_file_from_containers cfg0 ['x'] none [(0, sh0), (1, sh1)]
        ctns0 ctnEnv0).evs =
      [Ev.openD ['x'], Ev.writeSeg 0 [1, 2], Ev.writeSeg 1 [5, 6, 7]] ∧
    (scr_fetch_file_from_containers cfg0 ['x'] none [(0, sh0), (1, sh1)]
        ctns0 ctnEnv0).rc = .failure := by
  refine ⟨by decide, by decide, by decide⟩

/-- C1 witness: a concrete run whose first segment has a failing LENGTH
lookup; the amended theorem applies and shows the loop aborted there with
a SCR_FAILURE return. -/
theorem C1_witness :
    (scr_fetch_file_from_containers cfg0 ['x'] none [(0, shBad), (1, sh1)]
        ctns0 ctnEnv0).segTrace.length = 0 + 1 ∧
    (scr_fetch_file_from_containers cfg0 ['x'] none [(0, shBad), (1, sh1)]
        ctns0 ctnEnv0).rc = .failure := by
  have h := C1_theorem cfg0 ['x'] none [(0, shBad), (1, sh1)] ctns0 ctnEnv0
    0 .setupFail [] (by decide)
  exact ⟨(h.1 rfl).1, h.2 (by decide)⟩

/-
Claim C5.
-/

/-- C5: with scr_crc_on_flush enabled and a crc recorded in the meta data,
both fetch paths compare the computed crc with the recorded one after an
otherwise successful transfer, and return SCR_FAILURE exactly when the two
values differ. -/
theorem C5_theorem :
    (∀ (cfg : Config) (srcDir : Str) (mf : Option Str) (dstDir : Str)
       (env : FFEnv) (c : Nat),
       (scr_fetch_file cfg srcDir mf (some c) dstDir env).preCrcRc =
         .success →
       cfg.crcOnFlush = true →
       ((scr_fetch_file cfg srcDir mf (some c) dstDir env).rc = .failure ↔
         env.copyCrc ≠ c)) ∧
    (∀ (cfg : Config) (file : Str) (segments : List (Int × SegHash))
       (ctns : Containers) (env : CtnEnv) (c : Nat),
       (scr_fetch_file_from_containers cfg file (some c) segments ctns
         env).preCrcRc = .success →
       cfg.crcOnFlush = true →
       ((scr_fetch_file_from_containers cfg file (some c) segments ctns
          env).rc = .failure ↔
         (scr_fetch_file_from_containers cfg file (some c) segments ctns
          env).crc ≠ c)) := by
  constructor
  · intro cfg srcDir mf dstDir env c hpre hcrc
    match mf with
    | none => simp [scr_fetch_file] at hpre
    | some name =>
      simp only [scr_fetch_file, scr_copy_to] at hpre ⊢
      by_cases hc : env.copyCrc = c
      · simp [hpre, hcrc, hc]
      · simp [hpre, hcrc, hc]
  · intro cfg file segments ctns env c hpre hcrc
    by_cases hf : file = []
    · simp [scr_fetch_file_from_containers, hf] at hpre
    · by_cases hop : env.openDstOk = false
      · simp [scr_fetch_file_from_containers, hf, hop] at hpre
      · by_cases hal : env.allocOk = false
        · simp [scr_fetch_file_from_containers, hf, hop, hal] at hpre
        · by_cases hcl : env.closeDstOk = true
          · by_cases hv : (segProcess cfg ctns env.segEnv (sortSegs segments)
                0 (cfg.crcFun 0 []) .success).2.1 = c
            · simp [scr_fetch_file_from_containers, hf, hop, hal, hcrc, hcl,
                hv] at hpre ⊢
              simp [hpre, hv]
            · simp [scr_fetch_file_from_containers, hf, hop, hal, hcrc, hcl,
                hv] at hpre ⊢
              simp [hpre, hv]
          · simp only [Bool.not_eq_true] at hcl
            simp [scr_fetch_file_from_containers, hf, hop, hal, hcl] at hpre

/-- C5 witness: concrete instances of both fetch paths with successful
transfers, crc checking on, and a recorded crc differing from the computed
one. -/
theorem C5_witness :
    ((scr_fetch_file cfg1 ['s'] (some ['m']) (some 7) ['d']
        ⟨.success, 9⟩).rc = .failure ↔ (9 : Nat) ≠ 7) ∧
    ((scr_fetch_file_from_containers cfg1 ['x'] (some 5) [(0, sh1)] ctns0
        ctnEnv1).rc = .failure ↔
      (scr_fetch_file_from_containers cfg1 ['x'] (some 5) [(0, sh1)] ctns0
        ctnEnv1).crc ≠ 5) :=
  ⟨C5_theorem.1 cfg1 ['s'] (some ['m']) ['d'] ⟨.success, 9⟩ 7 (by decide) rfl,
   C5_theorem.2 cfg1 ['x'] [(0, sh1)] ctns0 ctnEnv1 5 (by decide) rfl⟩

/-
Claim C10.
-/

/-- Removing a file entry that carries the NOFETCH key (with any value)
does not change the file loop at all: the entry is skipped before being
counted, added to the filemap, or fetched. -/
theorem flProcess_nofetch (cfg : Config) (ctns : Option Containers)
    (dir : Str) (env : Nat → FileEnv) (f : Str) (rec : FileRec) (v : Bool)
    (hnf : rec.noFetch = some v) :
    ∀ (fs1 fs2 : List (Str × FileRec)) (k : Nat) (rc : RC) (cnt : Nat),
      flProcess cfg ctns dir env (fs1 ++ (f, rec) :: fs2) k rc cnt =
        flProcess cfg ctns dir env (fs1 ++ fs2) k rc cnt := by
  intro fs1
  induction fs1 with
  | nil =>
    intro fs2 k rc cnt
    simp only [List.nil_append, flProcess, hnf]
  | cons p rest ih =>
    intro fs2 k rc cnt
    obtain ⟨g, grec⟩ := p
    cases hgn : grec.noFetch with
    | some w =>
      simp only [List.cons_append, flProcess, hgn]
      exact ih fs2 k rc cnt
    | none =>
      cases hgs : grec.size with
      | none => simp only [List.cons_append, flProcess, hgn, hgs]
      | some sz =>
        simp only [List.cons_append, flProcess, hgn, hgs, List.append_eq]
        rw [ih fs2 (k + 1) _ (cnt + 1)]

/-- C10: a file entry whose per-file record carries the NOFETCH key is
excluded from the fetch regardless of the key's value: the whole
scr_fetch_files_list run (result code, expected file count, and every
event - filemap additions, fetches, meta updates) is identical to the run
on the list with the entry removed. -/
theorem C10_theorem (cfg : Config) (ctns : Option Containers) (dir : Str)
    (env : Nat → FileEnv) (fs1 fs2 : List (Str × FileRec)) (f : Str)
    (rec : FileRec) (v : Bool) (hnf : rec.noFetch = some v) :
    scr_fetch_files_list cfg ctns dir env (fs1 ++ (f, rec) :: fs2) =
      scr_fetch_files_list cfg ctns dir env (fs1 ++ fs2) := by
  unfold scr_fetch_files_list
  rw [flProcess_nofetch cfg ctns dir env f rec v hnf fs1 fs2 0 .success 0]

/-- C10 witness: a NOFETCH-marked file whose key value is false is still
excluded - the run equals the run without it. -/
theorem C10_witness :
    scr_fetch_files_list cfg0 none ['c'] (fun _ => fenvOk)
        ([(['a'], recPlain)] ++ (['b'], recNoF) :: []) =
      scr_fetch_files_list cfg0 none ['c'] (fun _ => fenvOk)
        ([(['a'], recPlain)] ++ []) :=
  C10_theorem cfg0 none ['c'] (fun _ => fenvOk) [(['a'], recPlain)] []
    ['b'] recNoF false rfl

/-
Claim C2.
-/

/-- SCR_FAILURE is sticky through the file loop. -/
theorem flProcess_sticky (cfg : Config) (ctns : Option Containers)
    (dir : Str) (env : Nat → FileEnv) :
    ∀ (files : List (Str × FileRec)) (k cnt : Nat),
      (flProcess cfg ctns dir env files k .failure cnt).1 = .failure := by
  intro files
  induction files with
  | nil => intro k cnt; rfl
  | cons p rest ih =>
    intro k cnt
    obtain ⟨g, grec⟩ := p
    cases hgn : grec.noFetch with
    | some w =>
      simp only [flProcess, hgn]
      exact ih k cnt
    | none =>
      cases hgs : grec.size with
      | none => simp only [flProcess, hgn, hgs]
      | some sz =>
        cases hc : ctns with
        | some c =>
          rw [hc] at ih
          simp only [flProcess, hgn, hgs, hc, ite_self]
          exact ih (k + 1) (cnt + 1)
        | none =>
          rw [hc] at ih
          cases hp : grec.path with
          | some fromDir =>
            simp only [flProcess, hgn, hgs, hc, hp, ite_self]
            exact ih (k + 1) (cnt + 1)
          | none =>
            simp only [flProcess, hgn, hgs, hc, hp]
            exact ih (k + 1) (cnt + 1)

/-- Every file of the list that does not carry the NOFETCH key is added to
the filemap, provided every record of the list has a SIZE entry. -/
theorem flProcess_add_mem (cfg : Config) (ctns : Option Containers)
    (dir : Str) (env : Nat → FileEnv) (f : Str) (rec : FileRec)
    (hnf : rec.noFetch = none) :
    ∀ (files : List (Str × FileRec)) (k : Nat) (rc : RC) (cnt : Nat),
      (∀ p ∈ files, p.2.size.isSome = true) →
      (f, rec) ∈ files →
      Ev.filemapAdd (newfileOf dir f) ∈
        (flProcess cfg ctns dir env files k rc cnt).2.2 := by
  intro files
  induction files with
  | nil => intro k rc cnt _ hm; simp at hm
  | cons p rest ih =>
    intro k rc cnt hsz hm
    rcases List.mem_cons.mp hm with heq | hm2
    · have hf : p = (f, rec) := heq.symm
      subst hf
      simp only [flProcess, hnf]
      cases hgs : rec.size with
      | none => simp
      | some sz =>
        cases hc : ctns with
        | some c => simp [hc]
        | none => cases hp : rec.path with
          | some fromDir => simp [hc, hp]
          | none => simp [hc, hp]
    · obtain ⟨g, grec⟩ := p
      have hszr : ∀ q ∈ rest, q.2.size.isSome = true := by
        intro q hq; exact hsz q (List.mem_cons_of_mem _ hq)
      cases hgn : grec.noFetch with
      | some w =>
        simp only [flProcess, hgn]
        exact ih k rc cnt hszr hm2
      | none =>
        have hsome : grec.size.isSome = true :=
          hsz (g, grec) (List.mem_cons_self _ _)
        rcases Option.isSome_iff_exists.mp hsome with ⟨sz, hgs⟩
        cases hc : ctns with
        | some c =>
          rw [hc] at ih
          simp only [flProcess, hgn, hgs, hc]
          exact List.mem_append_right _
            (List.mem_cons_of_mem _ (ih (k + 1) _ (cnt + 1) hszr hm2))
        | none =>
          rw [hc] at ih
          cases hp : grec.path with
          | some fromDir =>
            simp only [flProcess, hgn, hgs, hc, hp]
            exact List.mem_append_right _
              (List.mem_cons_of_mem _ (ih (k + 1) _ (cnt + 1) hszr hm2))
          | none =>
            simp only [flProcess, hgn, hgs, hc, hp]
            exact List.mem_append_right _
              (List.mem_cons_of_mem _ (ih (k + 1) _ (cnt + 1) hszr hm2))

/-- A file whose fetch fails gets its meta recorded with complete = 0 and
forces a SCR_FAILURE result of the file loop; the environment entry it
consumes is indexed by the number of active files before it. -/
theorem flProcess_fail_mem (cfg : Config) (ctns : Option Containers)
    (dir : Str) (env : Nat → FileEnv) (f : Str) (rec : FileRec)
    (fs2 : List (Str × FileRec)) (hnf : rec.noFetch = none) :
    ∀ (fs1 : List (Str × FileRec)) (k : Nat) (rc : RC) (cnt : Nat),
      (∀ p ∈ fs1 ++ (f, rec) :: fs2, p.2.size.isSome = true) →
      fetchFails cfg ctns dir f rec (env (k + activeCount fs1)) →
      Ev.setMeta (newfileOf dir f) 0 ∈
          (flProcess cfg ctns dir env (fs1 ++ (f, rec) :: fs2) k rc
            cnt).2.2 ∧
        (flProcess cfg ctns dir env (fs1 ++ (f, rec) :: fs2) k rc cnt).1 =
          .failure := by
  intro fs1
  induction fs1 with
  | nil =>
    intro k rc cnt hsz hff
    have hsome : rec.size.isSome = true := hsz (f, rec) (by simp)
    rcases Option.isSome_iff_exists.mp hsome with ⟨sz, hgs⟩
    have hk : k + activeCount [] = k := by simp [activeCount]
    rw [hk] at hff
    unfold fetchFails at hff
    cases hc : ctns with
    | some c =>
      simp only [hc] at hff
      simp only [List.nil_append, flProcess, hnf, hgs, hc, if_pos hff]
      refine ⟨List.mem_append_right _ (List.mem_cons_self _ _), ?_⟩
      exact flProcess_sticky cfg (some c) dir env fs2 (k + 1) (cnt + 1)
    | none =>
      simp only [hc] at hff
      cases hp : rec.path with
      | some fromDir =>
        simp only [hp] at hff
        simp only [List.nil_append, flProcess, hnf, hgs, hc, hp, if_pos hff]
        refine ⟨List.mem_append_right _ (List.mem_cons_self _ _), ?_⟩
        exact flProcess_sticky cfg none dir env fs2 (k + 1) (cnt + 1)
      | none =>
        simp only [List.nil_append, flProcess, hnf, hgs, hc, hp]
        refine ⟨List.mem_append_right _ (List.mem_cons_self _ _), ?_⟩
        exact flProcess_sticky cfg none dir env fs2 (k + 1) (cnt + 1)
  | cons p rest ih =>
    intro k rc cnt hsz hff
    obtain ⟨g, grec⟩ := p
    have hszr : ∀ q ∈ rest ++ (f, rec) :: fs2, q.2.size.isSome = true := by
      intro q hq; exact hsz q (List.mem_cons_of_mem _ hq)
    cases hgn : grec.noFetch with
    | some w =>
      have hac : activeCount ((g, grec) :: rest) = activeCount rest := by
        simp [activeCount, hgn]
      rw [hac] at hff
      simp only [List.cons_append, flProcess, hgn]
      exact ih k rc cnt hszr hff
    | none =>
      have hsome : grec.size.isSome = true := hsz (g, grec) (by simp)
      rcases Option.isSome_iff_exists.mp hsome with ⟨sz, hgs⟩
      have hac : activeCount ((g, grec) :: rest) = activeCount rest + 1 := by
        simp [activeCount, hgn, Nat.add_comm]
      rw [hac] at hff
      have hk : k + (activeCount rest + 1) = (k + 1) + activeCount rest := by
        omega
      rw [hk] at hff
      cases hc : ctns with
      | some c =>
        rw [hc] at ih hff
        simp only [List.cons_append, flProcess, hgn, hgs, hc, List.append_eq]
        exact ⟨List.mem_cons_of_mem _ (List.mem_cons_of_mem _
          (List.mem_append_right _ (List.mem_cons_of_mem _
            (ih (k + 1) _ (cnt + 1) hszr hff).1))),
          (ih (k + 1) _ (cnt + 1) hszr hff).2⟩
      | none =>
        rw [hc] at ih hff
        cases hp : grec.path with
        | some fromDir =>
          simp only [List.cons_append, flProcess, hgn, hgs, hc, hp,
            List.append_eq]
          exact ⟨List.mem_cons_of_mem _ (List.mem_cons_of_mem _
            (List.mem_append_right _ (List.mem_cons_of_mem _
              (ih (k + 1) _ (cnt + 1) hszr hff).1))),
            (ih (k + 1) _ (cnt + 1) hszr hff).2⟩
        | none =>
          simp only [List.cons_append, flProcess, hgn, hgs, hc, hp,
            List.append_eq]
          exact ⟨List.mem_cons_of_mem _ (List.mem_cons_of_mem _
            (List.mem_append_right _ (List.mem_cons_of_mem _
              (ih (k + 1) _ (cnt + 1) hszr hff).1))),
            (ih (k + 1) _ (cnt + 1) hszr hff).2⟩

/-- C2 (amended): in scr_fetch_files_list, provided every record of the
list has a readable SIZE entry, every file without the NOFETCH key is
added to the filemap, every file whose transfer fails (container fetch
failure, plain fetch failure, or missing PATH entry) has its meta recorded
with complete = 0 and makes the per-process result SCR_FAILURE while
iteration continues over the remaining files, and the trace ends with the
expected-file count and a final filemap write that persists the recorded
metas.  (A missing SIZE entry instead stops iteration; see the
counterexample.) -/
theorem C2_theorem (cfg : Config) (ctns : Option Containers) (dir : Str)
    (env : Nat → FileEnv) (fs1 fs2 : List (Str × FileRec)) (f : Str)
    (rec : FileRec) (hnf : rec.noFetch = none)
    (hsz : ∀ p ∈ fs1 ++ (f, rec) :: fs2, p.2.size.isSome = true) :
    Ev.filemapAdd (newfileOf dir f) ∈
      (scr_fetch_files_list cfg ctns dir env (fs1 ++ (f, rec) :: fs2)).evs ∧
    (fetchFails cfg ctns dir f rec (env (activeCount fs1)) →
      Ev.setMeta (newfileOf dir f) 0 ∈
        (scr_fetch_files_list cfg ctns dir env (fs1 ++ (f, rec) :: fs2)).evs ∧
      (scr_fetch_files_list cfg ctns dir env (fs1 ++ (f, rec) :: fs2)).rc =
        .failure) ∧
    (∃ l, (scr_fetch_files_list cfg ctns dir env (fs1 ++ (f, rec) :: fs2)).evs =
      l ++ [Ev.setExpected
              (scr_fetch_files_list cfg ctns dir env (fs1 ++ (f, rec) :: fs2)).count,
            Ev.filemapWrite]) := by
  refine ⟨?_, ?_, ?_⟩
  · exact List.mem_append_left _
      (flProcess_add_mem cfg ctns dir env f rec hnf _ 0 .success 0 hsz
        (by simp))
  · intro hff
    have hff2 : fetchFails cfg ctns dir f rec (env (0 + activeCount fs1)) := by
      rwa [Nat.zero_add]
    have h := flProcess_fail_mem cfg ctns dir env f rec fs2 hnf fs1 0
      .success 0 hsz hff2
    exact ⟨List.mem_append_left _ h.1, h.2⟩
  · exact ⟨(flProcess cfg ctns dir env (fs1 ++ (f, rec) :: fs2) 0 .success
      0).2.2, rfl⟩

/-- C2 counterexample: a two-file list in which the first file's SIZE
lookup fails.  The loop breaks: the second (healthy) file is never added
to the filemap or fetched, and the first file gets no meta record at all -
falsifying both "processing continues with every remaining file" and "that
file's meta is persisted with complete=0". -/
theorem C2_counterexample :
    (scr_fetch_files_list cfg0 none ['c'] (fun _ => fenvOk)
        [(['a'], recNoSize), (['b'], recPlain)]).rc = .failure ∧
    (scr_fetch_files_list cfg0 none ['c'] (fun _ => fenvOk)
        [(['a'], recNoSize), (['b'], recPlain)]).evs =
      [Ev.filemapAdd ['c', '/', 'a'], Ev.filemapWrite, Ev.setExpected 1,
       Ev.filemapWrite] := by
  exact ⟨by decide, by decide⟩

/-- C2 witness: a single plain file whose copy fails: it is added to the
filemap, its meta is recorded with complete = 0, and the result is
SCR_FAILURE. -/
theorem C2_witness :
    Ev.filemapAdd ['c', '/', 'a'] ∈
      (scr_fetch_files_list cfg0 none ['c'] (fun _ => fenvFail)
        ([] ++ (['a'], recPlain) :: [])).evs ∧
    Ev.setMeta ['c', '/', 'a'] 0 ∈
      (scr_fetch_files_list cfg0 none ['c'] (fun _ => fenvFail)
        ([] ++ (['a'], recPlain) :: [])).evs ∧
    (scr_fetch_files_list cfg0 none ['c'] (fun _ => fenvFail)
      ([] ++ (['a'], recPlain) :: [])).rc = .failure := by
  have h := C2_theorem cfg0 none ['c'] (fun _ => fenvFail) [] []
    ['a'] recPlain rfl (by decide)
  have h2 := h.2.1 rfl
  exact ⟨h.1, h2.1, h2.2⟩

/-
Claim C3.
-/

/-- The basename of a path with a slash appended component is the basename
of that component. -/
theorem baseNameL_append (x y : Str) :
    baseNameL (x ++ '/' :: y) = baseNameL y := by
  simp [baseNameL, List.foldl_append]

/-- Folding the basename accumulator over a slash-free suffix appends it. -/
theorem baseNameL_foldl_noSlash (y : Str) (hy : '/' ∉ y) :
    ∀ acc : Str,
      y.foldl (fun acc c => if c = '/' then [] else acc ++ [c]) acc =
        acc ++ y := by
  induction y with
  | nil => intro acc; simp
  | cons c t ih =>
    intro acc
    have hc : c ≠ '/' := fun h => hy (h ▸ List.mem_cons_self _ _)
    have ht : '/' ∉ t := fun h => hy (List.mem_cons_of_mem _ h)
    simp only [List.foldl_cons, if_neg hc]
    rw [ih ht (acc ++ [c])]
    simp

/-- The basename of a slash-free name is the name itself. -/
theorem baseNameL_of_noSlash (y : Str) (hy : '/' ∉ y) : baseNameL y = y := by
  unfold baseNameL
  rw [baseNameL_foldl_noSlash y hy []]
  simp

/-- The basename never contains a slash. -/
theorem baseNameL_noSlash (l : Str) : '/' ∉ baseNameL l := by
  suffices h : ∀ acc : Str, '/' ∉ acc →
      '/' ∉ l.foldl (fun acc c => if c = '/' then [] else acc ++ [c]) acc by
    exact h [] (by simp)
  induction l with
  | nil => intro acc hacc; simpa using hacc
  | cons c t ih =>
    intro acc hacc
    simp only [List.foldl_cons]
    by_cases hc : c = '/'
    · rw [if_pos hc]
      exact ih [] (by simp)
    · rw [if_neg hc]
      refine ih (acc ++ [c]) ?_
      intro hmem
      rcases List.mem_append.mp hmem with h1 | h1
      · exact hacc h1
      · exact hc (List.mem_singleton.mp h1).symm

/-- The destination path computed inside the plain-copy collaborator equals
the destination path scr_fetch_files_list precomputed. -/
theorem copy_dst_eq (srcDir dir f : Str) :
    buildPath dir (baseNameL (buildPath srcDir (newfileOf dir f))) =
      newfileOf dir f := by
  unfold newfileOf buildPath
  rw [baseNameL_append, baseNameL_append,
    baseNameL_of_noSlash (baseNameL f) (baseNameL_noSlash f)]

/-- The copy loop emits only byte-transfer events. -/
theorem copyLoop_no_openD (cfg : Config) (key : Int) :
    ∀ (reads : List ReadRes) (ws : List Bool) (remaining crc : Nat) (p : Str),
      Ev.openD p ∉ (copyLoop cfg key reads ws remaining crc).2.2 := by
  intro reads
  induction reads with
  | nil =>
    intro ws remaining crc p
    simp only [copyLoop]
    split <;> simp
  | cons r rest ih =>
    intro ws remaining crc p
    simp only [copyLoop]
    split
    · simp
    · match r with
      | .err => simp
      | .ok data =>
        simp only []
        split
        · match ws with
          | [] => simp
          | w :: wrest =>
            simp only []
            split
            · split
              · simp
              · intro hmem
                rcases List.mem_cons.mp hmem with h1 | h1
                · exact absurd h1 (by simp)
                · exact ih wrest _ _ p h1
            · simp
        · split
          · simp
          · exact ih ws remaining crc p

/-- A segment step emits only byte-transfer events. -/
theorem segStep_no_openD (cfg : Config) (ctns : Containers) (key : Int)
    (sh : SegHash) (e : SegEnv) (crc : Nat) (p : Str) :
    Ev.openD p ∉ (segStep cfg ctns key sh e crc).evs := by
  unfold segStep
  rcases hm : scr_container_get_name_size_offset_length sh ctns with _ | info
  · simp
  · rcases ho : e.openOk with _ | _
    · simp
    · rcases hs : e.seekOk with _ | _
      · simp
      · simp [segStep, hm, ho, hs]
        exact copyLoop_no_openD cfg key e.reads e.writes info.2.2.2 crc p

/-- The segment loop trace contains only byte-transfer events. -/
theorem segProcess_no_openD (cfg : Config) (ctns : Containers)
    (env : Nat → SegEnv) :
    ∀ (l : List (Int × SegHash)) (k crc : Nat) (rc : RC) (o : SegOutcome)
      (e : List Ev) (p : Str),
      (o, e) ∈ (segProcess cfg ctns env l k crc rc).2.2 →
      Ev.openD p ∉ e := by
  intro l
  induction l with
  | nil => intro k crc rc o e p hm; simp [segProcess] at hm
  | cons x rest ih =>
    intro k crc rc o e p hm
    obtain ⟨key, sh⟩ := x
    rcases hstep : segStep cfg ctns key sh (env k) crc with ⟨o2, evs2, crc2, ab⟩
    cases ab
    · rw [segProcess_cons_next hstep] at hm
      rcases List.mem_cons.mp hm with h1 | h1
      · have he : e = evs2 := congrArg Prod.snd h1
        subst he
        have := segStep_no_openD cfg ctns key sh (env k) crc p
        rwa [hstep] at this
      · exact ih (k + 1) crc2 _ o e p h1
    · rw [segProcess_cons_abort hstep] at hm
      rcases List.mem_cons.mp hm with h1 | h1
      · have he : e = evs2 := congrArg Prod.snd h1
        subst he
        have := segStep_no_openD cfg ctns key sh (env k) crc p
        rwa [hstep] at this
      · simp at h1

/-- Every destination-creation event of a container fetch names the
destination file passed in. -/
theorem ctn_openD (cfg : Config) (file : Str) (metaCrc : Option Nat)
    (segments : List (Int × SegHash)) (ctns : Containers) (env : CtnEnv)
    (q : Str)
    (h : Ev.openD q ∈ (scr_fetch_file_from_containers cfg file metaCrc
        segments ctns env).evs) : q = file := by
  by_cases hf : file = []
  · simp [scr_fetch_file_from_containers, hf] at h
  · by_cases hop : env.openDstOk = false
    · simp [scr_fetch_file_from_containers, hf, hop] at h
    · by_cases hal : env.allocOk = false
      · simp [scr_fetch_file_from_containers, hf, hop, hal] at h
        exact h
      · simp only [scr_fetch_file_from_containers, if_neg hf, if_neg hop,
          if_neg hal] at h
        rcases List.mem_cons.mp h with h1 | h1
        · exact (Ev.openD.injEq q file).mp h1
        · exfalso
          rcases List.mem_flatten.mp h1 with ⟨e, he, hqe⟩
          rcases List.mem_map.mp he with ⟨⟨o, e2⟩, hoe, hee⟩
          subst hee
          exact segProcess_no_openD cfg ctns env.segEnv _ _ _ _ o e2 q hoe hqe

/-- Every destination-creation event of a plain fetch names the computed
destination path. -/
theorem ff_openD (cfg : Config) (srcDir : Str) (mf : Str)
    (metaCrc : Option Nat) (dstDir : Str) (env : FFEnv) (q : Str)
    (h : Ev.openD q ∈ (scr_fetch_file cfg srcDir (some mf) metaCrc dstDir
        env).evs) :
    q = buildPath dstDir (baseNameL (buildPath srcDir mf)) := by
  simp only [scr_fetch_file, scr_copy_to] at h
  rcases List.mem_singleton.mp h with h1
  exact (Ev.openD.injEq _ _).mp h1

/-- A trace without destination-creation events is trivially well ordered. -/
theorem NoOpen_GoodT (evs : List Ev) (h : NoOpen evs) : GoodT evs := by
  intro i p hi
  exact absurd (List.getElem?_mem hi) (h p)

/-- Well ordered traces are closed under concatenation. -/
theorem GoodT_append (a b : List Ev) (ha : GoodT a) (hb : GoodT b) :
    GoodT (a ++ b) := by
  intro i p hi
  by_cases hlen : i < a.length
  · rw [List.getElem?_append_left hlen] at hi
    obtain ⟨k, j, hkj, hji, hk, hj⟩ := ha i p hi
    refine ⟨k, j, hkj, hji, ?_, ?_⟩
    · rw [List.getElem?_append_left (by omega)]
      exact hk
    · rw [List.getElem?_append_left (by omega)]
      exact hj
  · push_neg at hlen
    rw [List.getElem?_append_right hlen] at hi
    obtain ⟨k, j, hkj, hji, hk, hj⟩ := hb (i - a.length) p hi
    refine ⟨a.length + k, a.length + j, by omega, by omega, ?_, ?_⟩
    · rw [List.getElem?_append_right (by omega)]
      simpa using hk
    · rw [List.getElem?_append_right (by omega)]
      simpa using hj

/-- A per-file block - filemap addition, filemap write, then events whose
destination creations all name the same path - is well ordered. -/
theorem GoodT_block (nf : Str) (mid : List Ev)
    (hmid : ∀ q, Ev.openD q ∈ mid → q = nf) :
    GoodT (Ev.filemapAdd nf :: Ev.filemapWrite :: mid) := by
  intro i p hi
  match i with
  | 0 => simp at hi
  | 1 => simp at hi
  | i + 2 =>
    simp only [List.getElem?_cons_succ] at hi
    have hp : p = nf := hmid p (List.getElem?_mem hi)
    subst hp
    exact ⟨0, 1, by omega, by omega, by simp, by simp⟩

/-- Every trace of the file loop is well ordered: a destination file is
created only after its filemap addition and a filemap write. -/
theorem flProcess_GoodT (cfg : Config) (ctns : Option Containers)
    (dir : Str) (env : Nat → FileEnv) :
    ∀ (files : List (Str × FileRec)) (k : Nat) (rc : RC) (cnt : Nat),
      GoodT (flProcess cfg ctns dir env files k rc cnt).2.2 := by
  intro files
  induction files with
  | nil =>
    intro k rc cnt
    exact NoOpen_GoodT _ (by intro p; simp [flProcess])
  | cons p rest ih =>
    intro k rc cnt
    obtain ⟨g, grec⟩ := p
    cases hgn : grec.noFetch with
    | some w =>
      simp only [flProcess, hgn]
      exact ih k rc cnt
    | none =>
      cases hgs : grec.size with
      | none =>
        simp only [flProcess, hgn, hgs]
        exact NoOpen_GoodT _ (by intro q; simp)
      | some sz =>
        cases hc : ctns with
        | some c =>
          rw [hc] at ih
          simp only [flProcess, hgn, hgs, hc]
          have hshape :
              [Ev.filemapAdd (newfileOf dir g), Ev.filemapWrite] ++
                  (scr_fetch_file_from_containers cfg (newfileOf dir g)
                    grec.crc grec.segments c (env k).ctn).evs ++
                  Ev.setMeta (newfileOf dir g)
                    (if (scr_fetch_file_from_containers cfg (newfileOf dir g)
                        grec.crc grec.segments c (env k).ctn).rc = .failure
                      then 0 else 1) ::
                  (flProcess cfg (some c) dir env rest (k + 1)
                    (if (scr_fetch_file_from_containers cfg (newfileOf dir g)
                        grec.crc grec.segments c (env k).ctn).rc = .failure
                      then .failure else rc) (cnt + 1)).2.2 =
                (Ev.filemapAdd (newfileOf dir g) :: Ev.filemapWrite ::
                  ((scr_fetch_file_from_containers cfg (newfileOf dir g)
                    grec.crc grec.segments c (env k).ctn).evs ++
                   [Ev.setMeta (newfileOf dir g)
                    (if (scr_fetch_file_from_containers cfg (newfileOf dir g)
                        grec.crc grec.segments c (env k).ctn).rc = .failure
                      then 0 else 1)])) ++
                (flProcess cfg (some c) dir env rest (k + 1)
                    (if (scr_fetch_file_from_containers cfg (newfileOf dir g)
                        grec.crc grec.segments c (env k).ctn).rc = .failure
                      then .failure else rc) (cnt + 1)).2.2 := by
            simp
          rw [hshape]
          refine GoodT_append _ _ ?_ (ih (k + 1) _ (cnt + 1))
          refine GoodT_block _ _ ?_
          intro q hq
          rcases List.mem_append.mp hq with h1 | h1
          · exact ctn_openD cfg (newfileOf dir g) grec.crc grec.segments c
              (env k).ctn q h1
          · exact absurd (List.mem_singleton.mp h1) (by simp)
        | none =>
          rw [hc] at ih
          cases hp2 : grec.path with
          | some fromDir =>
            simp only [flProcess, hgn, hgs, hc, hp2]
            have hshape :
                [Ev.filemapAdd (newfileOf dir g), Ev.filemapWrite] ++
                    (scr_fetch_file cfg fromDir (some (newfileOf dir g))
                      grec.crc dir (env k).ff).evs ++
                    Ev.setMeta (newfileOf dir g)
                      (if (scr_fetch_file cfg fromDir (some (newfileOf dir g))
                          grec.crc dir (env k).ff).rc = .failure
                        then 0 else 1) ::
                    (flProcess cfg none dir env rest (k + 1)
                      (if (scr_fetch_file cfg fromDir (some (newfileOf dir g))
                          grec.crc dir (env k).ff).rc = .failure
                        then .failure else rc) (cnt + 1)).2.2 =
                  (Ev.filemapAdd (newfileOf dir g) :: Ev.filemapWrite ::
                    ((scr_fetch_file cfg fromDir (some (newfileOf dir g))
                      grec.crc dir (env k).ff).evs ++
                     [Ev.setMeta (newfileOf dir g)
                      (if (scr_fetch_file cfg fromDir (some (newfileOf dir g))
                          grec.crc dir (env k).ff).rc = .failure
                        then 0 else 1)])) ++
                  (flProcess cfg none dir env rest (k + 1)
                      (if (scr_fetch_file cfg fromDir (some (newfileOf dir g))
                          grec.crc dir (env k).ff).rc = .failure
                        then .failure else rc) (cnt + 1)).2.2 := by
              simp
            rw [hshape]
            refine GoodT_append _ _ ?_ (ih (k + 1) _ (cnt + 1))
            refine GoodT_block _ _ ?_
            intro q hq
            rcases List.mem_append.mp hq with h1 | h1
            · have := ff_openD cfg fromDir (newfileOf dir g) grec.crc dir
                (env k).ff q h1
              rw [this]
              exact copy_dst_eq fromDir dir g
            · exact absurd (List.mem_singleton.mp h1) (by simp)
          | none =>
            simp only [flProcess, hgn, hgs, hc, hp2]
            have hshape :
                [Ev.filemapAdd (newfileOf dir g), Ev.filemapWrite] ++ [] ++
                    Ev.setMeta (newfileOf dir g) 0 ::
                    (flProcess cfg none dir env rest (k + 1) .failure
                      (cnt + 1)).2.2 =
                  [Ev.filemapAdd (newfileOf dir g), Ev.filemapWrite,
                    Ev.setMeta (newfileOf dir g) 0] ++
                  (flProcess cfg none dir env rest (k + 1) .failure
                      (cnt + 1)).2.2 := by
              simp
            rw [hshape]
            refine GoodT_append _ _ ?_ (ih (k + 1) _ (cnt + 1))
            exact NoOpen_GoodT _ (by intro q; simp)

/-- C3: in scr_fetch_files_list, whenever the destination file of a fetch
is opened/created (event openD, emitted by both the container-backed path
and the plain-file path), the trace contains an earlier filemap addition of
that same destination path followed by a filemap write, both strictly
before the creation. -/
theorem C3_theorem (cfg : Config) (ctns : Option Containers) (dir : Str)
    (env : Nat → FileEnv) (files : List (Str × FileRec)) (i : Nat) (p : Str)
    (h : (scr_fetch_files_list cfg ctns dir env files).evs[i]? =
      some (Ev.openD p)) :
    ∃ k j, k < j ∧ j < i ∧
      (scr_fetch_files_list cfg ctns dir env files).evs[k]? =
        some (Ev.filemapAdd p) ∧
      (scr_fetch_files_list cfg ctns dir env files).evs[j]? =
        some Ev.filemapWrite := by
  have hg : GoodT (scr_fetch_files_list cfg ctns dir env files).evs := by
    simp only [scr_fetch_files_list]
    exact GoodT_append _ _ (flProcess_GoodT cfg ctns dir env files 0 .success 0)
      (NoOpen_GoodT _ (by intro q; simp))
  exact hg i p h

/-- C3 witness: in a concrete single-file run the destination creation sits
at index 2, after the filemap addition (index 0) and the filemap write
(index 1). -/
theorem C3_witness :
    (scr_fetch_files_list cfg0 none ['c'] (fun _ => fenvOk)
        [(['a'], recPlain)]).evs[2]? = some (Ev.openD ['c', '/', 'a']) ∧
    ∃ k j, k < j ∧ j < 2 ∧
      (scr_fetch_files_list cfg0 none ['c'] (fun _ => fenvOk)
        [(['a'], recPlain)]).evs[k]? = some (Ev.filemapAdd ['c', '/', 'a']) ∧
      (scr_fetch_files_list cfg0 none ['c'] (fun _ => fenvOk)
        [(['a'], recPlain)]).evs[j]? = some Ev.filemapWrite :=
  ⟨by decide, C3_theorem cfg0 none ['c'] (fun _ => fenvOk) [(['a'], recPlain)]
    2 ['c', '/', 'a'] (by decide)⟩

/-
Claim C4.
-/

/-- The fill loop keeps the outstanding count at most w, keeps it equal to
the number of pending receives, and its events extend any w-bounded
continuation. -/
theorem fcFill_spec (n w : Nat) (succ : RC) :
    ∀ (fuel i out : Nat) (pending : List Nat),
      out ≤ w → out = pending.length →
      (fcFill n w succ fuel i out pending).2.2.1 ≤ w ∧
      (fcFill n w succ fuel i out pending).2.2.1 =
        (fcFill n w succ fuel i out pending).2.2.2.length ∧
      ∀ t, Bounded w (fcFill n w succ fuel i out pending).2.2.1 t →
        Bounded w out ((fcFill n w succ fuel i out pending).1 ++ t) := by
  intro fuel
  induction fuel with
  | zero =>
    intro i out pending hw hlen
    exact ⟨hw, hlen, fun t ht => by simpa [fcFill] using ht⟩
  | succ fuel ih =>
    intro i out pending hw hlen
    by_cases hcond : i < n ∧ out < w
    · simp only [fcFill, if_pos hcond]
      have hrec := ih (i + 1) (out + 1) (pending ++ [i])
        (by omega) (by simp [hlen])
      refine ⟨hrec.1, hrec.2.1, ?_⟩
      intro t ht
      have := hrec.2.2 t ht
      exact Bounded.go out i succ _ (by omega) this
    · simp only [fcFill, if_neg hcond]
      exact ⟨hw, hlen, fun t ht => by simpa using ht⟩

/-- Every trace of the rank-0 flow-control loop is w-bounded. -/
theorem fcRun_Bounded (n w : Nat) (reply : Nat → RC) :
    ∀ (fuel : Nat) (choices : List Nat) (succ : RC) (i out : Nat)
      (pending : List Nat), out ≤ w → out = pending.length →
      Bounded w out (fcRun n w reply fuel choices succ i out pending) := by
  intro fuel
  induction fuel with
  | zero => intro choices succ i out pending _ _; exact Bounded.nil out
  | succ fuel ih =>
    intro choices succ i out pending hw hlen
    obtain ⟨h1, h2, h3⟩ := fcFill_spec n w succ (n - i) i out pending hw hlen
    unfold fcRun
    by_cases hcond : i < n ∨ 0 < out
    · rw [if_pos hcond]
      rcases hp : (fcFill n w succ (n - i) i out pending).2.2.2 with _ | ⟨q, qs⟩
      · simp only [hp]
        have := h3 [] (Bounded.nil _)
        simpa using this
      · simp only [hp]
        apply h3
        rw [hp] at h2
        have hlt : (choices.headD 0) % (q :: qs).length < (q :: qs).length :=
          Nat.mod_lt _ (by simp)
        refine Bounded.done _ _ _ _ (by omega) ?_
        apply ih
        · omega
        · rw [List.length_eraseIdx, if_pos hlt]
          omega
    · rw [if_neg hcond]
      exact Bounded.nil out

/-- Counting events along any prefix of a w-bounded trace: replies never
outnumber issued requests, and the outstanding excess stays at most w. -/
theorem Bounded_counts (w : Nat) :
    ∀ (tr : List FCEv) (out : Nat), Bounded w out tr → out ≤ w →
      ∀ pre, pre <+: tr →
        doneCount pre ≤ out + goCount pre ∧
          out + goCount pre ≤ w + doneCount pre := by
  intro tr
  induction tr with
  | nil =>
    intro out _ hw pre hpre
    rw [List.prefix_nil.mp hpre]
    simpa [goCount, doneCount] using hw
  | cons e t ih =>
    intro out hb hw pre hpre
    rcases pre with _ | ⟨x, pre2⟩
    · simpa [goCount, doneCount] using hw
    · obtain ⟨hx, hpre2⟩ := List.cons_prefix_cons.mp hpre
      subst hx
      cases hb with
      | go out r f t hle hbt =>
        have := ih (out + 1) hbt hle pre2 hpre2
        exact ⟨by simp [goCount, doneCount]; omega,
          by simp [goCount, doneCount]; omega⟩
      | done out r f t hge hbt =>
        have := ih (out - 1) hbt (by omega) pre2 hpre2
        exact ⟨by simp [goCount, doneCount]; omega,
          by simp [goCount, doneCount]; omega⟩

/-- C4: along every prefix of every run of the rank-0 flow-control loop of
scr_fetch_data, the number of "done" replies received never exceeds the
number of "go" flags sent, and the number of "go" flags whose matching
"done" reply has not yet been received is at most
W = min(scr_fetch_width, scr_ranks_world - 1). -/
theorem C4_theorem (fetchWidth n : Nat) (reply : Nat → RC) (fuel : Nat)
    (choices : List Nat) (pre : List FCEv)
    (h : pre <+: fcRun n (wOf fetchWidth n) reply fuel choices .success
      1 0 []) :
    doneCount pre ≤ goCount pre ∧
      goCount pre ≤ wOf fetchWidth n + doneCount pre := by
  have hb := fcRun_Bounded n (wOf fetchWidth n) reply fuel choices .success
    1 0 [] (Nat.zero_le _) rfl
  have hc := Bounded_counts (wOf fetchWidth n) _ 0 hb (Nat.zero_le _) pre h
  simpa using hc

/-- C4 witness: a 3-rank run with fetch width 1 whose first event is the
"go" sent to rank 1; along that prefix one request is outstanding, within
the window bound W = 1. -/
theorem C4_witness :
    [FCEv.go 1 .success] <+:
      fcRun 3 (wOf 1 3) replyOk 5 [] .success 1 0 [] ∧
    doneCount [FCEv.go 1 .success] ≤ goCount [FCEv.go 1 .success] ∧
    goCount [FCEv.go 1 .success] ≤ wOf 1 3 + doneCount [FCEv.go 1 .success] := by
  have hpre : [FCEv.go 1 .success] <+:
      fcRun 3 (wOf 1 3) replyOk 5 [] .success 1 0 [] :=
    ⟨[FCEv.done 1 .success, FCEv.go 2 .success, FCEv.done 2 .success],
      by decide⟩
  exact ⟨hpre, C4_theorem 1 3 replyOk 5 [] [FCEv.go 1 .success] hpre⟩

/-
Claims C6, C7, C8.
-/

/-- scr_build_path never produces an empty path. -/
theorem buildPath_ne_nil (d n : Str) : buildPath d n ≠ [] := by
  simp [buildPath]

/-- One sync iteration sets fetch_attempted to 1 exactly when it selected a
candidate, and otherwise leaves it unchanged. -/
theorem syncIter_attempted (r0 readIx : Bool) (p : Str) (st : SyncSt)
    (o : IterO) :
    (syncIter r0 readIx p st o).attempted =
      if (syncIter r0 readIx p st o).selected = true then 1
      else st.attempted := by
  cases r0
  · simp [syncIter] <;> split_ifs <;> simp_all
  · rcases hp : iterSel readIx st o with ⟨ceil2, target⟩
    by_cases ht : target = []
    · subst ht
      simp [syncIter, hp] <;> split_ifs <;> simp_all
    · simp [syncIter, hp, ht] <;> split_ifs <;> simp_all

/-- The sync loop sets fetch_attempted to 1 exactly when some iteration
selected a candidate, and otherwise leaves it unchanged. -/
theorem syncLoop_attempted (r0 readIx : Bool) (p : Str) :
    ∀ (iters : List IterO) (st : SyncSt) (rcIn : RC),
      (syncLoop r0 readIx p st rcIn iters).1.attempted =
        if (syncLoop r0 readIx p st rcIn iters).2.2.2 = true then 1
        else st.attempted := by
  intro iters
  induction iters with
  | nil => intro st rcIn; simp [syncLoop]
  | cons o rest ih =>
    intro st rcIn
    have ha := syncIter_attempted r0 readIx p st o
    cases hcont : (syncIter r0 readIx p st o).cont
    · simp [syncLoop, hcont]
      simpa using ha
    · simp [syncLoop, hcont]
      rw [ih ⟨(syncIter r0 readIx p st o).ceil,
        (syncIter r0 readIx p st o).attempted⟩ (syncIter r0 readIx p st o).rc]
      by_cases hsel : (syncIter r0 readIx p st o).selected = true
      · simp [hsel, ha]
      · simp only [Bool.not_eq_true] at hsel
        simp [hsel, ha]

/-- C7 (amended): on rank 0, with the out-parameter fetch_attempted equal
to 0 on entry, scr_fetch_sync returns with fetch_attempted = 1 if and only
if at least one candidate (non-empty target) was selected during the call;
the function itself never clears the flag, so a non-zero incoming value
survives even when no candidate is selected (see the counterexample), and
the final broadcast copies rank 0's value to the other ranks. -/
theorem C7_theorem (prefD : Str) (env : SyncEnv) :
    (scr_fetch_sync 0 prefD 0 env).attemptedOut = 1 ↔
      (scr_fetch_sync 0 prefD 0 env).selectedAny = true := by
  simp only [scr_fetch_sync, if_pos rfl]
  rw [syncLoop_attempted]
  split_ifs with h <;> simp_all

/-- C7 counterexample: with the out-parameter already 1 on entry and an
environment in which no candidate is ever selected (the index yields no
most-recent-complete entry), scr_fetch_sync still returns
fetch_attempted = 1, because the function never writes 0 into it.  This
falsifies "when no candidate is ever selected, fetch_attempted is false on
return". -/
theorem C7_counterexample :
    (scr_fetch_sync 0 ['p'] 1 envC7).attemptedOut = 1 ∧
    (scr_fetch_sync 0 ['p'] 1 envC7).selectedAny = false :=
  ⟨by decide, by decide⟩

/-- C6 (amended): in the candidate loop of scr_fetch_sync on rank 0, every
failed attempt with a selected (non-empty) target unlinks the current
symlink and continues the loop, and records index.mark_failed(id, target)
exactly when the index file was read at startup and the resolved
checkpoint id is not -1; when no candidate is selected the iteration fails
and clears continue_fetching, and the loop then terminates returning that
failure. -/
theorem C6_theorem (readIx : Bool) (prefD : Str) (st : SyncSt) (o : IterO) :
    ((syncIter true readIx prefD st o).rc = .failure →
      (syncIter true readIx prefD st o).selected = true →
      SyEv.unlinkCur ∈ (syncIter true readIx prefD st o).evs ∧
      (syncIter true readIx prefD st o).cont = true ∧
      ((readIx = true ∧ (syncIter true readIx prefD st o).ceil ≠ -1) ↔
        SyEv.markFailed (syncIter true readIx prefD st o).ceil
          (syncIter true readIx prefD st o).target ∈
          (syncIter true readIx prefD st o).evs)) ∧
    ((syncIter true readIx prefD st o).selected = false →
      (syncIter true readIx prefD st o).rc = .failure ∧
      (syncIter true readIx prefD st o).cont = false) ∧
    (∀ (rcIn : RC) (rest : List IterO),
      (syncIter true readIx prefD st o).cont = false →
      (syncLoop true readIx prefD st rcIn (o :: rest)).2.2.1 =
        (syncIter true readIx prefD st o).rc) := by
  refine ⟨?_, ?_, ?_⟩
  · intro hrc hsel
    rcases hp : iterSel readIx st o with ⟨ceil2, target⟩
    by_cases ht : target = []
    · exfalso
      simp [syncIter, hp, ht] at hsel
    · by_cases hres : o.fetchRes = RC.success
      · exfalso
        simp [syncIter, hp, ht, hres, buildPath_ne_nil] at hrc
      · cases hix : readIx
        · rw [hix] at hp
          simp [syncIter, hp, ht, hres, buildPath_ne_nil]
        · rw [hix] at hp
          by_cases hceil : ceil2 = -1
          · simp [syncIter, hp, ht, hres, hceil, buildPath_ne_nil]
          · simp [syncIter, hp, ht, hres, hceil, buildPath_ne_nil]
  · intro hsel
    rcases hp : iterSel readIx st o with ⟨ceil2, target⟩
    by_cases ht : target = []
    · simp [syncIter, hp, ht]
    · exfalso
      simp [syncIter, hp, ht] at hsel
      split at hsel <;> (try split at hsel) <;> simp_all
  · intro rcIn rest hcont
    simp [syncLoop, hcont]

/-- C6 counterexample: the index file could not be read, so the candidate
comes from the current symlink; the attempt fails with a non-empty fetch
directory, yet the iteration's events are exactly the unlink of the
current symlink - index.mark_failed is never recorded and the index never
persisted, falsifying the claim. -/
theorem C6_counterexample :
    (syncIter true false ['p'] st0 itFailNoIx).rc = .failure ∧
    (syncIter true false ['p'] st0 itFailNoIx).selected = true ∧
    (syncIter true false ['p'] st0 itFailNoIx).cont = true ∧
    (syncIter true false ['p'] st0 itFailNoIx).evs = [SyEv.unlinkCur] :=
  ⟨by decide, by decide, by decide, by decide⟩

/-- C6 witness: a failing attempt on a candidate resolved from the index
(id 5, directory d) unlinks the symlink, records the failure in the index
and continues; and an iteration with no candidate left terminates the
loop with its failure code. -/
theorem C6_witness :
    SyEv.unlinkCur ∈ (syncIter true true ['p'] st0 itFailIx).evs ∧
    (syncIter true true ['p'] st0 itFailIx).cont = true ∧
    SyEv.markFailed (syncIter true true ['p'] st0 itFailIx).ceil
      (syncIter true true ['p'] st0 itFailIx).target ∈
      (syncIter true true ['p'] st0 itFailIx).evs ∧
    (syncLoop true true ['p'] st0 .success (itEmpty :: [])).2.2.1 =
      (syncIter true true ['p'] st0 itEmpty).rc := by
  have ha := (C6_theorem true ['p'] st0 itFailIx).1 (by decide) (by decide)
  have hb := (C6_theorem true ['p'] st0 itEmpty).2.2 .success [] (by decide)
  exact ⟨ha.1, ha.2.1, ha.2.2.mp ⟨rfl, by decide⟩, hb⟩

/-- On a non-zero rank, one sync iteration never creates the current
symlink. -/
theorem syncIter_nonzero_no_link (readIx : Bool) (p : Str) (st : SyncSt)
    (o : IterO) (t : Str) :
    SyEv.linkCreate t ∉ (syncIter false readIx p st o).evs := by
  simp [syncIter] <;> split_ifs <;> simp_all

/-- On a non-zero rank, the sync loop never creates the current symlink. -/
theorem syncLoop_nonzero_no_link (readIx : Bool) (p : Str) :
    ∀ (iters : List IterO) (st : SyncSt) (rcIn : RC) (t : Str),
      SyEv.linkCreate t ∉ (syncLoop false readIx p st rcIn iters).2.1 := by
  intro iters
  induction iters with
  | nil => intro st rcIn t; simp [syncLoop]
  | cons o rest ih =>
    intro st rcIn t
    cases hcont : (syncIter false readIx p st o).cont
    · simp [syncLoop, hcont]
      exact syncIter_nonzero_no_link readIx p st o t
    · simp [syncLoop, hcont]
      exact ⟨syncIter_nonzero_no_link readIx p st o t, ih _ _ t⟩

/-- C8 (amended): a rank other than 0 never creates the current symlink
during scr_fetch_sync, but it does unlink it on a failed attempt (see the
counterexample): only the creation of the link is rank-0-exclusive. -/
theorem C8_theorem (rank : Nat) (prefD : Str) (aIn : Int) (env : SyncEnv)
    (hr : rank ≠ 0) (t : Str) :
    SyEv.linkCreate t ∉ (scr_fetch_sync rank prefD aIn env).evs := by
  simp only [scr_fetch_sync]
  have h0 : decide (rank = 0) = false := by simp [hr]
  rw [h0]
  exact syncLoop_nonzero_no_link _ prefD env.iters ⟨-1, aIn⟩ .failure t

/-- C8 counterexample: a run of scr_fetch_sync on rank 1 whose single
attempt fails (with a non-empty broadcast fetch directory) performs the
unlink of the current symlink itself - scr_file_unlink at scr_fetch.c:934
is executed by every rank, falsifying the claim that the current symlink
is manipulated only by rank 0. -/
theorem C8_counterexample :
    (scr_fetch_sync 1 ['p'] 0 envC8).evs = [SyEv.unlinkCur] ∧
    (scr_fetch_sync 1 ['p'] 0 envC8).rc = .failure :=
  ⟨by decide, by decide⟩

/-- C8 witness: the amended theorem applied to rank 1: it never creates
the current symlink. -/
theorem C8_witness :
    SyEv.linkCreate ['x'] ∉ (scr_fetch_sync 1 ['p'] 0 envC8).evs :=
  C8_theorem 1 ['p'] 0 envC8 (by decide) ['x']

/-
Claim C9.
-/

/-- C9 (code evaluation at the failing input): a summary with a NON-EMPTY
containers catalogue.  scr_fetch_summary succeeds, stores the catalogue in
the file list, and STILL attaches a PATH=dir entry to the rank's file
record: the attachment loop at scr_fetch.c:541-550 is unconditional,
contradicting its own comment ("if we're not using containers, add PATH
entry for each of our files"), on which the claim is based. -/
theorem C9_theorem :
    (scr_fetch_summary 0 ['d'] env9).rc = .success ∧
    (scr_fetch_summary 0 ['d'] env9).containers = some ctns0 ∧
    (scr_fetch_summary 0 ['d'] env9).files =
      [(['f'], ⟨none, some 1, none, none, some ['d'], []⟩)] :=
  ⟨by decide, by decide, by decide⟩
